import Mathlib

/-!
Verification of the recursive tool-call execution loop of the AI-Engineer
repository (`AI_engineer/api_client.py`, `AI_engineer/conversation.py`,
`AI_engineer/file_operations.py`).

The Python sources are shallowly embedded: file contents and message text are
Lean `String`s, the mutable global `conversation_history` is passed as an
explicit `List Entry`, Python exceptions become `Except`, and external
collaborators that the source calls but does not define (the HTTP client,
`json.loads`, `subprocess`-based linters, wall-clock time, the file system)
are parameters of the embedded functions.
-/

namespace AIEngineer

/-! ## Python string semantics

Helpers mirroring the Python string operations the source uses.  Python
`str.lower` is modelled as per-character ASCII lowering and `str.split()`
whitespace as the six ASCII whitespace characters; the claims' inputs are
ASCII, where the two agree with CPython.
-/

/-- The characters Python `str.split()` / `str.strip()` treat as whitespace
(ASCII fragment). -/
def pyIsSpace (c : Char) : Bool :=
  c = ' ' || c = '\t' || c = '\n' || c = '\x0d' || c = '\x0b' || c = '\x0c'

/-- Python `s.lower()` (ASCII fragment). -/
def pyLower (s : String) : String :=
  String.mk (s.data.map Char.toLower)

/-- Python `s.strip()`: drop leading and trailing whitespace. -/
def pyStrip (s : String) : String :=
  String.mk (((s.data.dropWhile pyIsSpace).reverse.dropWhile pyIsSpace).reverse)

/-- Python `''.join(s.split())`: the characters of `s` with all whitespace
removed. -/
def stripAllSpace (s : String) : String :=
  String.mk (s.data.filter (fun c => !pyIsSpace c))

/-- `sub` occurs in `text` starting at its head. -/
def headOccurs (sub text : List Char) : Bool :=
  sub.isPrefixOf text

/-- Python `sub in text` on `List Char`. -/
def listContains (text sub : List Char) : Bool :=
  match text with
  | [] => sub.isEmpty
  | _ :: t => headOccurs sub text || listContains t sub

/-- Python `sub in text` for strings. -/
def pyContains (text sub : String) : Bool :=
  listContains text.data sub.data

/-- Python `s.endswith(suffix)`. -/
def pyEndsWith (s suffix : String) : Bool :=
  suffix.data.isSuffixOf s.data

/-- Scanner for non-overlapping occurrence counting: `skip` characters are
still part of the previous match and cannot start a new one. -/
def listCountGo (sub : List Char) : List Char → Nat → Nat
  | [], _ => 0
  | c :: t, 0 =>
    if headOccurs sub (c :: t) then 1 + listCountGo sub t (sub.length - 1)
    else listCountGo sub t 0
  | _ :: t, skip + 1 => listCountGo sub t skip

/-- Python `text.count(sub)`: number of non-overlapping occurrences, scanning
left to right; an empty `sub` counts `length + 1` occurrences. -/
def listCount (sub text : List Char) : Nat :=
  match sub with
  | [] => text.length + 1
  | s₀ :: s => listCountGo (s₀ :: s) text 0

/-- Python `text.count(sub)` for strings. -/
def pyCount (text sub : String) : Nat :=
  listCount sub.data text.data

/-- Python `text.replace(sub, repl, 1)` on `List Char`: replace the first
occurrence of `sub`. -/
def listReplaceFirst (sub repl text : List Char) : List Char :=
  match sub with
  | [] => repl ++ text
  | s₀ :: s =>
    match text with
    | [] => []
    | c :: t =>
      if headOccurs (s₀ :: s) (c :: t) then
        repl ++ t.drop s.length
      else
        c :: listReplaceFirst (s₀ :: s) repl t

/-- Python `text.replace(sub, repl, 1)` for strings. -/
def pyReplaceFirst (text sub repl : String) : String :=
  String.mk (listReplaceFirst sub.data repl.data text.data)

/-- Python truthiness of an optional string: `None` and `""` are falsy. -/
def truthy : Option String → Bool
  | none => false
  | some s => s ≠ ""

/-! ## Data model

`conversation_history` entries.  A message dict `{"role": ..., "content": ...}`
becomes a constructor per role; an assistant entry additionally carries its
`tool_calls` list (`[]` standing for an absent `tool_calls` key) and a tool
entry its `tool_call_id`.
-/

/-- One formatted tool call as stored in an assistant message and as passed to
`execute_function_call_dict`: the `id`, `function.name` and
`function.arguments` fields (the constant `type: function` field is omitted). -/
structure RawToolCall where
  id : String
  name : String
  args : String
deriving DecidableEq, Repr

/-- One entry of `conversation_history`. -/
inductive Entry where
  | system (content : String)
  | user (content : String)
  | assistant (content : Option String) (toolCalls : List RawToolCall)
  | tool (toolCallId : String) (content : String)
deriving DecidableEq, Repr

namespace Entry

/-- `msg["role"] == "system"`. -/
def isSystem : Entry → Bool
  | .system _ => true
  | _ => false

/-- `msg["role"] == "assistant"`. -/
def isAssistant : Entry → Bool
  | .assistant _ _ => true
  | _ => false

/-- `msg["role"] == "tool"`. -/
def isTool : Entry → Bool
  | .tool _ _ => true
  | _ => false

/-- `msg["content"]` (`none` is Python `None`; only assistant entries can
carry `None` in this program). -/
def contentOpt : Entry → Option String
  | .system c => some c
  | .user c => some c
  | .assistant c _ => c
  | .tool _ c => some c

end Entry

/-! ## conversation.py -/

/-- `conversation.trim_conversation_history`, acting on an explicit history
list instead of the module-global one: no-op at ≤ 20 entries, else keep all
system entries followed by the last 15 non-system entries. -/
def trim_conversation_history (history : List Entry) : List Entry :=
  if history.length ≤ 20 then history
  else
    let system_msgs := history.filter (fun m => m.isSystem)
    let other_msgs := history.filter (fun m => !m.isSystem)
    let other_msgs :=
      if other_msgs.length > 15 then
        other_msgs.drop (other_msgs.length - 15)
      else other_msgs
    system_msgs ++ other_msgs

/-! ## error_detection.py (the pure part) -/

/-- `error_detection.get_supported_extensions`. -/
def get_supported_extensions : List String :=
  [".py", ".js", ".jsx", ".ts", ".tsx"]

/-- `error_detection.is_supported_file`. -/
def is_supported_file (file_path : String) : Bool :=
  get_supported_extensions.any (fun ext => pyEndsWith file_path ext)

/-! ## file_operations.py

The file system is modelled as a partial map from path strings to file
contents (`none` = the file cannot be read, i.e. `open` raises
`FileNotFoundError`/`OSError`).  `normalize_path` calls `Path.resolve`, which
depends on the process working directory and on symlinks, so path
normalization is a parameter `normalize` of the embedded functions; its
`..`-check and `create_file`'s `~`-check (both `ValueError`s on malformed path
strings, not exercised by any claim) are not modelled.  Console output
(`console.print`) has no effect on the program state and is dropped.
-/

/-- A file-system state: path string to content. -/
def FS : Type := String → Option String

/-- Write `content` at `path`. -/
def fsUpdate (fs : FS) (path content : String) : FS :=
  fun q => if q = path then some content else fs q

/-- `file_operations.create_file`, as a state transformer on `FS`:
`none` models the `ValueError` raised when the content exceeds the 5 MB
limit; otherwise the parent-creating write. -/
def create_file (fs : FS) (path content : String) : Option FS :=
  if content.length > 5000000 then none
  else some (fsUpdate fs path content)

/-- `file_operations.apply_diff_edit` as a state transformer on `FS`.  It
reads the file, counts occurrences of `original_snippet`, and replaces the
first occurrence only when the count is exactly 1.  Both `ValueError`s (count
0, count > 1, and `create_file`'s size limit) and `FileNotFoundError` are
caught *inside* the function, which then only prints a warning: in every
failure case the function returns normally and the file system is unchanged. -/
def apply_diff_edit (fs : FS) (path original_snippet new_snippet : String) : FS :=
  match fs path with
  | none => fs
  | some content =>
    let occurrences := pyCount content original_snippet
    if occurrences = 0 then fs
    else if occurrences > 1 then fs
    else
      let updated_content := pyReplaceFirst content original_snippet new_snippet
      match create_file fs path updated_content with
      | none => fs
      | some fs' => fs'

/-- The in-context marker `f"Content of file '{normalized_path}'"` used by
`ensure_file_in_context`. -/
def fileMarker (normalized_path : String) : String :=
  "Content of file '" ++ normalized_path ++ "'"

/-- The membership scan
`any(file_marker in msg["content"] for msg in conversation_history)`:
`any` short-circuits, and evaluating `marker in None` raises a `TypeError`
(CPython message text), which this embedding returns as `.error`. -/
def scanHasMarker (marker : String) : List Entry → Except String Bool
  | [] => .ok false
  | msg :: rest =>
    match msg.contentOpt with
    | none => .error "argument of type 'NoneType' is not iterable"
    | some c =>
      if pyContains c marker then .ok true else scanHasMarker marker rest

/-- `file_operations.ensure_file_in_context`.  Returns the Python return
value together with the (possibly extended) history; an `OSError` while
reading the file is caught (`.ok (false, _)`), while a `TypeError` raised by
the marker scan propagates (only `OSError` is caught in the source). -/
def ensure_file_in_context (normalize : String → String) (fs : FS)
    (history : List Entry) (file_path : String) :
    Except String (Bool × List Entry) :=
  let normalized_path := normalize file_path
  match fs normalized_path with
  | none => .ok (false, history)
  | some content =>
    let marker := fileMarker normalized_path
    match scanHasMarker marker history with
    | .error e => .error e
    | .ok true => .ok (true, history)
    | .ok false => .ok (true, history ++ [.system (marker ++ ":\n\n" ++ content)])

/-- What executing one `edit_file` call leaves behind: the result string
handed back as the tool's output, the conversation history and the file
system. -/
structure EditOutcome where
  result : String
  history : List Entry
  fs : FS

/-- The `edit_file` branch of `api_client.execute_function_call_dict`,
including the enclosing `try`/`except Exception` that converts any escaped
exception into the `"Error executing edit_file: ..."` result text.  The
`linter` parameter stands for `error_detection.run_linter_auto`, which shells
out to external linters. -/
def execute_edit_file (normalize : String → String) (linter : String → String)
    (fs : FS) (history : List Entry)
    (file_path original_snippet new_snippet : String) : EditOutcome :=
  match ensure_file_in_context normalize fs history file_path with
  | .error e => ⟨"Error executing edit_file: " ++ e, history, fs⟩
  | .ok (false, history') =>
    ⟨"Error: Could not read file '" ++ file_path ++ "' for editing", history', fs⟩
  | .ok (true, history') =>
    let fs' := apply_diff_edit fs file_path original_snippet new_snippet
    let error_info :=
      if is_supported_file file_path then
        let linter_output := linter file_path
        if pyStrip linter_output ≠ "" then
          "\n\n🔍 LINTER DIAGNOSTICS after edit:\n" ++ linter_output ++
            "\n\n⚠️  ISSUES DETECTED - Consider fixing these errors/warnings!"
        else ""
      else ""
    ⟨"Successfully edited file '" ++ file_path ++ "'" ++ error_info, history', fs'⟩

/-! ## api_client.py — stream reassembly

One streamed `chunk.choices[0].delta` becomes a `Delta`; a
`tool_call_delta` becomes a `ToolCallDelta`.  In the source, `name` and
`arguments` sit under `delta.function`; `function = None` (both parts
absent) is modelled as `fnName = fnArgs = none`, which the source treats
identically.
-/

/-- One element of `chunk.choices[0].delta.tool_calls`. -/
structure ToolCallDelta where
  index : Option Nat
  id : Option String
  fnName : Option String
  fnArgs : Option String
deriving DecidableEq, Repr

/-- A fresh accumulator slot:
`{"id": "", "type": "function", "function": {"name": "", "arguments": ""}}`. -/
def emptyRawCall : RawToolCall := ⟨"", "", ""⟩

/-- The `while len(tool_calls) <= tool_call_delta.index:` padding loop. -/
def padCalls (calls : List RawToolCall) (index : Nat) : List RawToolCall :=
  calls ++ List.replicate (index + 1 - calls.length) emptyRawCall

/-- `tool_calls[index] = f tool_calls[index]` (the index is in range after
padding). -/
def setAt (calls : List RawToolCall) (index : Nat)
    (f : RawToolCall → RawToolCall) : List RawToolCall :=
  calls.set index (f (calls.getD index emptyRawCall))

/-- Processing one `tool_call_delta` (api_client.py lines 380–396): pad, then
*assign* the id when the fragment carries a truthy one, and *append* to the
name and arguments when the fragment carries truthy parts. -/
def applyToolCallDelta (calls : List RawToolCall) (d : ToolCallDelta) :
    List RawToolCall :=
  match d.index with
  | none => calls
  | some index =>
    let calls := padCalls calls index
    let calls :=
      if truthy d.id then setAt calls index (fun tc => { tc with id := d.id.getD "" })
      else calls
    let calls :=
      if truthy d.fnName then
        setAt calls index (fun tc => { tc with name := tc.name ++ d.fnName.getD "" })
      else calls
    let calls :=
      if truthy d.fnArgs then
        setAt calls index (fun tc => { tc with args := tc.args ++ d.fnArgs.getD "" })
      else calls
    calls

/-- One streamed delta event (`chunk.choices[0].delta`): an absent
`tool_calls` field is the empty list. -/
structure Delta where
  reasoningContent : Option String
  content : Option String
  toolCalls : List ToolCallDelta
deriving Repr

/-- The per-request stream accumulators (`reasoning_content`,
`final_content`, `tool_calls`). -/
structure StreamState where
  reasoningContent : String
  finalContent : String
  toolCalls : List RawToolCall
deriving Repr

/-- The accumulators' initial values. -/
def initStream : StreamState := ⟨"", "", []⟩

/-- The body of `for chunk in stream:` (api_client.py lines 361–396): an
`elif` chain on the truthiness of `reasoning_content` (gated on
`supports_reasoning()`), `content`, and `tool_calls`. -/
def processDelta (supportsReasoning : Bool) (st : StreamState) (d : Delta) :
    StreamState :=
  if supportsReasoning && truthy d.reasoningContent then
    { st with reasoningContent := st.reasoningContent ++ d.reasoningContent.getD "" }
  else if truthy d.content then
    { st with finalContent := st.finalContent ++ d.content.getD "" }
  else if !d.toolCalls.isEmpty then
    { st with toolCalls := d.toolCalls.foldl applyToolCallDelta st.toolCalls }
  else st

/-- Reassembling one finite response stream. -/
def processStream (supportsReasoning : Bool) (deltas : List Delta) : StreamState :=
  deltas.foldl (processDelta supportsReasoning) initStream

/-! ## api_client.py — trivial-iteration guard -/

/-- The fixed keyword list of `_is_trivial_iteration`. -/
def trivial_keywords : List String :=
  ["blank line", "spacing", "whitespace", "indentation",
   "extra blank", "remove blank", "add blank", "pep 8",
   "two blank lines", "blank lines between", "trailing whitespace"]

/-- `args.get(key, '').lower()`, the arguments dict modelled as an
association list. -/
def argsGetLower (args : List (String × String)) (key : String) : String :=
  pyLower ((args.lookup key).getD "")

/-- The per-call body of `_is_trivial_iteration`'s loop.  `decodeArgs` stands
for `json.loads` (a decode failure, `none`, is the caught
`json.JSONDecodeError` — the loop `continue`s).  Mirrors the source: calls
whose name is not `edit_file` are never trivial; the whitespace-equality check
runs only when both lowercased snippets strip to something non-empty; the
keyword scan runs over the combined lowercased text. -/
def isTrivialCall (decodeArgs : String → Option (List (String × String)))
    (tc : RawToolCall) : Bool :=
  tc.name = "edit_file" &&
    match decodeArgs tc.args with
    | none => false
    | some args =>
      let original := argsGetLower args "original_snippet"
      let new := argsGetLower args "new_snippet"
      let wsOnly :=
        ((pyStrip original).length > 0 && (pyStrip new).length > 0) &&
          stripAllSpace original == stripAllSpace new
      let combined_text := pyLower (original ++ " " ++ new)
      wsOnly || trivial_keywords.any (fun k => pyContains combined_text k)

/-- `api_client._is_trivial_iteration`: true when some call of the batch
triggers one of the two checks (the source returns `True` from inside its
loop; an empty batch returns `False`). -/
def is_trivial_iteration (decodeArgs : String → Option (List (String × String)))
    (tool_calls : List RawToolCall) : Bool :=
  tool_calls.any (isTrivialCall decodeArgs)

/-! ## api_client.py — the recursive function-calling loop

`_recursive_function_calling_loop` is embedded with its external
collaborators as parameters:

* `script n` is what iteration `n`'s `client.chat.completions.create` call
  plus the `for chunk in stream` read yields: the finite delta sequence, or
  `.error e` when the call or the stream read raises (the loop contains no
  `try`/`except` around either, so the exception propagates out of the
  embedded function as `.error e`).
* `exec history tc` is `execute_function_call_dict(tc)` run against the
  current history: the entries it appends to `conversation_history` itself
  (`ensure_file_in_context` appends `system` file-context entries) and its
  result, `.error e` modelling an exception escaping it (handled by the
  loop's own `try`/`except` around the call).
* `millis` is `int(time.time() * 1000)` and `decodeArgs` is `json.loads`
  inside `_is_trivial_iteration`.

The `while iteration < max_iterations` loop increments `iteration` once per
pass, so it is embedded as structural recursion on the remaining passes
`fuel = max_iterations - iteration`.
-/

/-- The loop's external collaborators. -/
structure LoopConfig where
  script : Nat → Except String (List Delta)
  exec : List Entry → RawToolCall → List Entry × Except String String
  supportsReasoning : Bool
  millis : Nat
  decodeArgs : String → Option (List (String × String))

/-- Building `formatted_tool_calls` (api_client.py lines 408–422): keep the
accumulated calls with a truthy name, in order, substituting
`f"call_{i}_{int(time.time()*1000)}"` (with `i` the index in the original
list) for a missing id. -/
def formatToolCalls (millis : Nat) (tool_calls : List RawToolCall) :
    List RawToolCall :=
  (tool_calls.enum.filter (fun p => p.2.name ≠ "")).map (fun p =>
    { p.2 with
      id := if p.2.id ≠ "" then p.2.id
            else "call_" ++ toString p.1 ++ "_" ++ toString millis })

/-- The `for tool_call in formatted_tool_calls:` execution loop (api_client.py
lines 453–474): each call appends whatever entries the executor itself adds,
then exactly one `tool` entry carrying the call's id — with the result on
success and `f"Error: {str(e)}"` when the executor raised. -/
def execBatch (exec : List Entry → RawToolCall → List Entry × Except String String) :
    List Entry → List RawToolCall → List Entry
  | history, [] => history
  | history, tc :: rest =>
    let extra := (exec history tc).1
    let content :=
      match (exec history tc).2 with
      | .ok r => r
      | .error e => "Error: " ++ e
    execBatch exec (history ++ extra ++ [.tool tc.id content]) rest

/-- What a terminated loop run leaves behind: the final history, the Python
locals `iteration`, the number of endpoint requests issued, the batches of
tool calls actually executed (in order), whether the consecutive-trivial
break fired, whether the max-iterations warning was printed, and the
`success` field of the returned dict. -/
structure LoopFinal where
  history : List Entry
  iteration : Nat
  requests : Nat
  execLog : List (List RawToolCall)
  trivialStop : Bool
  maxIterWarned : Bool
  success : Bool

/-- The body of `_recursive_function_calling_loop`'s `while` loop, by
recursion on the remaining passes.  `.error e` is an exception propagating
out of the Python function (it has no handler). -/
def loopGo (cfg : LoopConfig) (max_iterations : Nat) :
    Nat → Nat → Nat → List Entry → Nat → List (List RawToolCall) →
    Except String LoopFinal
  | 0, iteration, _, history, requests, execLog =>
    .ok ⟨history, iteration, requests, execLog, false,
      decide (max_iterations ≤ iteration), true⟩
  | fuel + 1, iteration, consecutive_trivial, history, requests, execLog =>
    let iteration := iteration + 1
    match cfg.script iteration with
    | .error e => .error e
    | .ok deltas =>
      let requests := requests + 1
      let st := processStream cfg.supportsReasoning deltas
      let assistantContent : Option String :=
        if st.finalContent ≠ "" then some st.finalContent else none
      if !st.toolCalls.isEmpty then
        let formatted := formatToolCalls cfg.millis st.toolCalls
        if !formatted.isEmpty then
          let history := history ++ [.assistant none formatted]
          let consecutive_trivial :=
            if is_trivial_iteration cfg.decodeArgs formatted then
              consecutive_trivial + 1
            else 0
          if 3 ≤ consecutive_trivial then
            .ok ⟨history, iteration, requests, execLog, true,
              decide (max_iterations ≤ iteration), true⟩
          else
            loopGo cfg max_iterations fuel iteration consecutive_trivial
              (execBatch cfg.exec history formatted) requests (execLog ++ [formatted])
        else
          loopGo cfg max_iterations fuel iteration consecutive_trivial history
            requests execLog
      else
        let content :=
          match assistantContent with
          | some s => if pyStrip s ≠ "" then s else "I have completed the analysis."
          | none => "I have completed the analysis."
        .ok ⟨history ++ [.assistant (some content) []], iteration, requests,
          execLog, false, decide (max_iterations ≤ iteration), true⟩

/-- `api_client._recursive_function_calling_loop(client, current_model,
max_iterations)` run against an initial conversation history.  The `while`
guard `iteration < max_iterations` holds exactly while the remaining-pass
fuel `max_iterations - iteration` is positive, so the run starts with fuel
`max_iterations`. -/
def runLoop (cfg : LoopConfig) (history : List Entry)
    (max_iterations : Nat := 10) : Except String LoopFinal :=
  loopGo cfg max_iterations max_iterations 0 0 history 0 []

/-! ## Transcript shape checkers

Decidable checkers formalizing the spec's transcript invariants; the theorems
below run them over the histories the embedded code produces.
-/

/-- Every `tool` entry's `tool_call_id` was declared by some *earlier*
assistant entry's tool calls (`declared` carries the ids seen so far). -/
def toolOrphanFreeGo (declared : List String) : List Entry → Bool
  | [] => true
  | .assistant _ tcs :: rest =>
    toolOrphanFreeGo (declared ++ tcs.map RawToolCall.id) rest
  | .tool tid _ :: rest => declared.contains tid && toolOrphanFreeGo declared rest
  | _ :: rest => toolOrphanFreeGo declared rest

/-- A transcript has no orphaned `tool` entry: each one is preceded by an
assistant entry that declared its `tool_call_id`. -/
def toolOrphanFree (l : List Entry) : Bool :=
  toolOrphanFreeGo [] l

/-- Multiset removal: drop one occurrence of `x` from `ids` (`none` when
absent). -/
def removeOne (x : String) : List String → Option (List String)
  | [] => none
  | y :: ys => if x = y then some ys else (removeOne x ys).map (y :: ·)

/-- One step of the pairing checker.  The state is `none` outside a tool-call
segment and `some ids` when `ids` of the last assistant entry's declared call
ids still await their tool entries; the outer `none` is a violation.  A tool
entry outside any segment is not the claim's concern and passes; one inside a
segment must answer a still-open id ("exactly N" — a surplus or mismatched
tool entry fails); an assistant entry requires the previous segment to be
fully answered. -/
def pairStep (st : Option (List String)) (e : Entry) :
    Option (Option (List String)) :=
  match e with
  | .assistant _ tcs =>
    match st with
    | some (_ :: _) => none
    | _ => some (if tcs.isEmpty then none else some (tcs.map RawToolCall.id))
  | .tool tid _ =>
    match st with
    | none => some none
    | some ids => (removeOne tid ids).map some
  | _ => some st

/-- Run the pairing checker from a starting state; at the end of the
transcript every declared call id must have been answered. -/
def pairingOkFrom (st : Option (List String)) (l : List Entry) : Bool :=
  match l.foldlM pairStep st with
  | some none => true
  | some (some []) => true
  | _ => false

/-- The pairing invariant: every assistant entry carrying a non-empty
tool-call list is followed — before any further assistant entry and before
the end of the transcript — by exactly its number of tool entries whose
`tool_call_id`s are a permutation of its call ids (non-tool, non-assistant
entries such as injected file-context `system` entries may interleave). -/
def pairingOk (l : List Entry) : Bool := pairingOkFrom none l

/-- The executor only ever appends `system` entries to the history
(`ensure_file_in_context` injects file-context `system` entries; nothing in
`execute_function_call_dict` appends any other role). -/
def ExecOnlySystem
    (exec : List Entry → RawToolCall → List Entry × Except String String) : Prop :=
  ∀ h tc, ∀ e ∈ (exec h tc).1, e.isSystem = true

/-- The assistant-entry shape invariant (claim C7): with tool calls the
content is the null marker, without them the content is a non-empty string —
so no assistant entry lacks both. Non-assistant entries satisfy it
trivially. -/
def assistantShapeOk : Entry → Prop
  | .assistant c tcs =>
    (tcs ≠ [] → c = none) ∧ (tcs = [] → ∃ s, c = some s ∧ s ≠ "")
  | _ => True

/-- Modelled from the spec's words (claim C8), for comparison with
`isTrivialCall`: a single edit call is trivial iff (a) stripping all
whitespace from its original snippet and from its new snippet yields
identical strings, or (b) the combined lowercased original+new text contains
one of the fixed cosmetic keywords; only `edit_file` calls are trivial. -/
def specTrivialCall (decodeArgs : String → Option (List (String × String)))
    (tc : RawToolCall) : Bool :=
  tc.name = "edit_file" &&
    match decodeArgs tc.args with
    | none => false
    | some args =>
      let original := (args.lookup "original_snippet").getD ""
      let new := (args.lookup "new_snippet").getD ""
      (stripAllSpace original == stripAllSpace new) ||
        trivial_keywords.any (fun k =>
          pyContains (pyLower (original ++ " " ++ new)) k)

/-- The concatenation, in stream order, of the (possibly absent) parts a
fragment sequence carries in the field selected by `f` (an absent or empty
part contributes nothing). -/
def joinParts (f : ToolCallDelta → Option String) (ds : List ToolCallDelta) :
    String :=
  ds.foldl (fun acc d => acc ++ (f d).getD "") ""

/-- The last truthy id part of a fragment sequence (`""` when there is
none): what id-assignment — rather than concatenation — leaves behind. -/
def lastIdPart (ds : List ToolCallDelta) : String :=
  ds.foldl (fun acc d => if truthy d.id then d.id.getD "" else acc) ""

/-! ## Concrete scenario inputs

Fixed endpoint scripts, decoders and histories used by the closed
counterexample and witness theorems.
-/

/-- A delta carrying one complete `edit_file` tool call whose arguments
(the opaque text `"TRIV"`) decode to a whitespace-only edit. -/
def trivDelta : Delta :=
  ⟨none, none, [⟨some 0, some "id1", some "edit_file", some "TRIV"⟩]⟩

/-- A concrete `json.loads` stand-in: `"TRIV"` decodes to a whitespace-only
edit's arguments, everything else fails to decode. -/
def sampleDecode : String → Option (List (String × String)) :=
  fun s =>
    if s = "TRIV" then
      some [("original_snippet", "a  b"), ("new_snippet", "ab")]
    else none

/-- An endpoint that proposes the same trivial whitespace-only edit on every
iteration. -/
def cfgTrivial : LoopConfig :=
  { script := fun _ => .ok [trivDelta]
    exec := fun _ _ => ([], .ok "ok")
    supportsReasoning := false
    millis := 0
    decodeArgs := sampleDecode }

/-- A delta carrying one complete `read_file` tool call (never trivial). -/
def readDelta : Delta :=
  ⟨none, none, [⟨some 0, some "id2", some "read_file", some "PATH"⟩]⟩

/-- An endpoint that proposes a non-trivial `read_file` call on every
iteration. -/
def cfgRead : LoopConfig :=
  { cfgTrivial with script := fun _ => .ok [readDelta] }

/-- An endpoint whose response stream carries no content and no tool calls. -/
def cfgEmptyResponse : LoopConfig :=
  { cfgTrivial with script := fun _ => .ok [] }

/-- An endpoint whose very first request raises a transport error. -/
def cfgFailing : LoopConfig :=
  { cfgTrivial with script := fun _ => .error "Connection error" }

/-- An endpoint that streams one `read_file` call, then raises a transport
error on the second request. -/
def cfgFailing2 : LoopConfig :=
  { cfgTrivial with
    script := fun n => if n = 1 then .ok [readDelta] else .error "Connection error" }

/-- A two-entry starting history: the seeded system prompt and one user
turn. -/
def initialHistory : List Entry :=
  [.system "SYSTEM PROMPT", .user "fix the bug"]

/-- The two tool calls of claim C4's 30-entry scenario transcript. -/
def c4ToolCalls : List RawToolCall :=
  [⟨"call_A", "read_file", "ARGS_A"⟩, ⟨"call_B", "read_file", "ARGS_B"⟩]

/-- Claim C4's scenario transcript: 30 entries, one system entry, and an
assistant entry with two tool calls sitting 16 non-system entries from the
end — so the keep-last-15 window starts right after it but inside its two
tool results. -/
def c4History : List Entry :=
  [.system "SYSTEM PROMPT"] ++ List.replicate 13 (.user "earlier turn") ++
    [.assistant none c4ToolCalls, .tool "call_A" "result A", .tool "call_B" "result B"] ++
    List.replicate 13 (.user "later turn")

/-- Claim C2's file system: one readable file `notes.txt` with content
`xyx`. -/
def c2FS : FS := fun p => if p = "notes.txt" then some "xyx" else none

/-- Claim C2's history: the file is already in context, so
`ensure_file_in_context` succeeds without touching the history. -/
def c2History : List Entry :=
  [.system "Content of file 'notes.txt':\n\nxyx"]

/-- Claim C8's concrete decoder: `"CEX1"` decodes to a case-only edit
(`A` → `a`), `"CEX2"` to a whitespace-only-snippets edit (`" "` → `""`). -/
def c8Decode : String → Option (List (String × String)) :=
  fun s =>
    if s = "CEX1" then some [("original_snippet", "A"), ("new_snippet", "a")]
    else if s = "CEX2" then some [("original_snippet", " "), ("new_snippet", "")]
    else none

/-- Claim C10's witness file system: one readable file `b.txt`. -/
def c10FS : FS := fun p => if p = "b.txt" then some "zz" else none

/-- Claim C10's witness history: a single assistant entry carrying a tool
call, whose content is therefore the null marker — exactly what the loop
appends before executing a batch. -/
def c10History : List Entry :=
  [.assistant none [⟨"call_1", "edit_file", "ARGS"⟩]]

/-! ## Theorems -/

/-- The membership scan of `ensure_file_in_context` hits a `None` content
before any entry containing the marker: `any(...)`'s short-circuit reaches
`file_marker in None`, which raises `TypeError`. -/
theorem scanHasMarker_error_of_none (marker : String) (e : Entry)
    (post : List Entry) (hnone : e.contentOpt = none) :
    ∀ pre : List Entry,
      (∀ m ∈ pre, ∃ s, m.contentOpt = some s ∧ pyContains s marker = false) →
      scanHasMarker marker (pre ++ e :: post) =
        .error "argument of type 'NoneType' is not iterable" := by
  intro pre hpre
  induction pre with
  | nil =>
    simp only [List.nil_append, scanHasMarker]
    rw [hnone]
  | cons m rest ih =>
    obtain ⟨s, hs, hc⟩ := hpre m (List.mem_cons_self m rest)
    simp only [List.cons_append, scanHasMarker]
    rw [hs]
    simp only [hc, if_neg Bool.false_ne_true]
    exact ih (fun m' hm' => hpre m' (List.mem_cons_of_mem m hm'))

/-- Claim C10 (confirmed).  When the conversation history holds an entry
whose content is `None` (such as an assistant entry carrying tool calls)
positioned before the first entry containing the marker
`Content of file '<normalized path>'`, and the target file itself is
readable, executing `edit_file` makes the in-context membership scan raise
`TypeError`; the executor's outer handler catches it and returns the
generic `"Error executing edit_file: ..."` text, the history is left as it
was and the file system is untouched. -/
theorem C10_none_content_scan_raises_type_error
    (normalize : String → String) (linter : String → String) (fs : FS)
    (pre post : List Entry) (e : Entry)
    (file_path original_snippet new_snippet content : String)
    (hnone : e.contentOpt = none)
    (hpre : ∀ m ∈ pre, ∃ s, m.contentOpt = some s ∧
      pyContains s (fileMarker (normalize file_path)) = false)
    (hread : fs (normalize file_path) = some content) :
    execute_edit_file normalize linter fs (pre ++ e :: post)
        file_path original_snippet new_snippet =
      ⟨"Error executing edit_file: argument of type 'NoneType' is not iterable",
        pre ++ e :: post, fs⟩ := by
  unfold execute_edit_file ensure_file_in_context
  simp only [hread,
    scanHasMarker_error_of_none (fileMarker (normalize file_path)) e post hnone pre hpre]
  rfl

/-- Witness for claim C10 at a concrete input: a history whose sole entry is
an assistant message with `content = None` (and a tool call), a readable
target file, and an `edit_file` execution that returns the generic error
text, leaving history and file untouched. -/
theorem C10_witness :
    execute_edit_file id (fun _ => "") c10FS c10History "b.txt" "o" "n" =
      ⟨"Error executing edit_file: argument of type 'NoneType' is not iterable",
        c10History, c10FS⟩ :=
  C10_none_content_scan_raises_type_error id (fun _ => "") c10FS []
    [] (.assistant none [⟨"call_1", "edit_file", "ARGS"⟩]) "b.txt" "o" "n" "zz"
    rfl (by simp) rfl

/-- Claim C2 (code bug).  With the file `notes.txt` containing `xyx`:
a zero-occurrence edit (snippet `q`) and an ambiguous edit (snippet `x`,
2 occurrences) both leave the file byte-for-byte unchanged, but the tool
result handed back is the success text `Successfully edited file
'notes.txt'` — not a "snippet not found" / "ambiguous edit" error text as
the claim states, because `apply_diff_edit` catches its own `ValueError`s
and only prints to the console, after which `execute_function_call_dict`
unconditionally returns the success string.  A unique occurrence (snippet
`y`) does replace. -/
theorem C2_edit_failure_reported_as_success :
    (execute_edit_file id (fun _ => "") c2FS c2History "notes.txt" "q" "z").result
        = "Successfully edited file 'notes.txt'" ∧
    (execute_edit_file id (fun _ => "") c2FS c2History "notes.txt" "q" "z").fs "notes.txt"
        = some "xyx" ∧
    pyCount "xyx" "q" = 0 ∧
    (execute_edit_file id (fun _ => "") c2FS c2History "notes.txt" "x" "z").result
        = "Successfully edited file 'notes.txt'" ∧
    (execute_edit_file id (fun _ => "") c2FS c2History "notes.txt" "x" "z").fs "notes.txt"
        = some "xyx" ∧
    pyCount "xyx" "x" = 2 ∧
    (execute_edit_file id (fun _ => "") c2FS c2History "notes.txt" "y" "z").result
        = "Successfully edited file 'notes.txt'" ∧
    (execute_edit_file id (fun _ => "") c2FS c2History "notes.txt" "y" "z").fs "notes.txt"
        = some "xzx" ∧
    pyCount "xyx" "y" = 1 :=
  ⟨rfl, rfl, rfl, rfl, rfl, rfl, rfl, rfl, rfl⟩

/-- Claim C4 (code bug).  On the spec's 30-entry scenario transcript —
orphan-free, with an assistant entry declaring two tool calls placed 16
non-system entries from the end — `trim_conversation_history` keeps the
last 15 non-system entries unconditionally: the declaring assistant entry
is dropped while both of its tool entries are retained, so the trimmed
transcript has orphaned tool entries; the window is not extended backward
as the claim requires. -/
theorem C4_trim_orphans_tool_entries :
    c4History.length = 30 ∧
    toolOrphanFree c4History = true ∧
    (trim_conversation_history c4History).length = 16 ∧
    (.assistant none c4ToolCalls : Entry) ∉ trim_conversation_history c4History ∧
    (.tool "call_A" "result A" : Entry) ∈ trim_conversation_history c4History ∧
    (.tool "call_B" "result B" : Entry) ∈ trim_conversation_history c4History ∧
    toolOrphanFree (trim_conversation_history c4History) = false :=
  ⟨rfl, rfl, rfl, by decide, by decide, by decide, rfl⟩

/-- Claim C6 (code bug).  `_recursive_function_calling_loop` wraps neither
the `client.chat.completions.create` call nor the stream read in any
`try`/`except`: a transport failure propagates out of the loop as an
exception — on a first-request failure and equally on a later-iteration
failure — so the loop never returns the structured `{success: false,
error}` outcome the claim describes (its only return value is
`{"success": True}`). -/
theorem C6_transport_error_propagates_uncaught :
    runLoop cfgFailing initialHistory 10 = .error "Connection error" ∧
    runLoop cfgFailing2 initialHistory 10 = .error "Connection error" :=
  ⟨rfl, rfl⟩

/-- A non-truthy optional part is the empty string once defaulted. -/
theorem getD_empty_of_not_truthy (o : Option String) (h : truthy o = false) :
    o.getD "" = "" := by
  cases o with
  | none => rfl
  | some s =>
    simp only [truthy, decide_eq_false_iff_not, ne_eq, not_not] at h
    simp [h]

/-- `joinParts` as a fold from an arbitrary accumulator. -/
theorem joinParts_from (f : ToolCallDelta → Option String) :
    ∀ (ds : List ToolCallDelta) (acc : String),
      ds.foldl (fun a d => a ++ (f d).getD "") acc = acc ++ joinParts f ds
  | [], acc => by simp [joinParts, String.append_empty]
  | d :: ds, acc => by
    simp only [joinParts, List.foldl_cons]
    rw [joinParts_from f ds (acc ++ (f d).getD ""),
      joinParts_from f ds ("" ++ (f d).getD ""), String.empty_append,
      String.append_assoc]

/-- Splitting `joinParts` at the head fragment. -/
theorem joinParts_cons (f : ToolCallDelta → Option String) (d : ToolCallDelta)
    (ds : List ToolCallDelta) :
    joinParts f (d :: ds) = (f d).getD "" ++ joinParts f ds := by
  simp only [joinParts, List.foldl_cons]
  rw [joinParts_from f ds ("" ++ (f d).getD ""), String.empty_append]
  rfl

/-- Effect of one index-0 fragment on a one-slot accumulator: the id is
assigned (when truthy), the name and arguments parts are appended. -/
theorem applyToolCallDelta_single (r : RawToolCall) (d : ToolCallDelta)
    (h : d.index = some 0) :
    applyToolCallDelta [r] d =
      [⟨if truthy d.id then d.id.getD "" else r.id,
        if truthy d.fnName then r.name ++ d.fnName.getD "" else r.name,
        if truthy d.fnArgs then r.args ++ d.fnArgs.getD "" else r.args⟩] := by
  cases hid : truthy d.id <;> cases hn : truthy d.fnName <;>
    cases ha : truthy d.fnArgs <;>
      simp [applyToolCallDelta, h, padCalls, setAt, hid, hn, ha]

/-- Folding index-0 fragments over a one-slot accumulator: the final id is
the fold of id assignments, the final name and arguments are the existing
field followed by the concatenated parts. -/
theorem foldl_applyToolCallDelta_single :
    ∀ (ds : List ToolCallDelta), (∀ d ∈ ds, d.index = some 0) →
    ∀ r : RawToolCall,
      ds.foldl applyToolCallDelta [r] =
        [⟨ds.foldl (fun a d => if truthy d.id then d.id.getD "" else a) r.id,
          r.name ++ joinParts (fun d => d.fnName) ds,
          r.args ++ joinParts (fun d => d.fnArgs) ds⟩]
  | [], _, r => by simp [joinParts, String.append_empty]
  | d :: ds, h, r => by
    rw [List.foldl_cons, applyToolCallDelta_single r d (h d (List.mem_cons_self d ds)),
      foldl_applyToolCallDelta_single ds (fun d' hd' => h d' (List.mem_cons_of_mem d hd'))]
    simp only [RawToolCall.mk.injEq, List.cons.injEq, and_true]
    refine ⟨rfl, ?_, ?_⟩
    · rw [joinParts_cons]
      cases hn : truthy d.fnName
      · simp [getD_empty_of_not_truthy _ hn]
      · simp [String.append_assoc]
    · rw [joinParts_cons]
      cases ha : truthy d.fnArgs
      · simp [getD_empty_of_not_truthy _ ha]
      · simp [String.append_assoc]

/-- `processStream` over single-fragment chunks only folds the fragments
into the tool-call accumulator. -/
theorem processStream_fragments (supportsReasoning : Bool) :
    ∀ (ds : List ToolCallDelta) (st : StreamState),
      (ds.map (fun d => (⟨none, none, [d]⟩ : Delta))).foldl
          (processDelta supportsReasoning) st =
        { st with toolCalls := ds.foldl applyToolCallDelta st.toolCalls }
  | [], st => by simp
  | d :: ds, st => by
    simp only [List.map_cons, List.foldl_cons]
    rw [show processDelta supportsReasoning st ⟨none, none, [d]⟩ =
        { st with toolCalls := applyToolCallDelta st.toolCalls d } by
      simp [processDelta, truthy]]
    rw [processStream_fragments supportsReasoning ds]

/-- Claim C3 (counterexample).  Two fragments at index 0 carrying id parts
`ab` then `cd`: the reassembled id is `cd` — the later id part *overwrites*
the earlier one instead of being concatenated onto it as the claim states
(`ab ++ cd` would be `abcd`). -/
theorem C3_id_fragment_overwritten :
    (processStream false
        [⟨none, none, [⟨some 0, some "ab", some "edit_", none⟩]⟩,
         ⟨none, none, [⟨some 0, some "cd", some "file", none⟩]⟩]).toolCalls =
      [⟨"cd", "edit_file", ""⟩] ∧
    ("cd" : String) ≠ "ab" ++ "cd" :=
  ⟨rfl, by decide⟩

/-- Claim C3 (amended).  For every non-empty fragment sequence of one model
response all targeting index 0 (one streamed tool call): the first fragment
allocates a request with empty id, name and arguments; every later name or
arguments part is appended onto the existing field by string concatenation,
so the original name and arguments strings are reconstructed byte for byte
as the concatenation of their parts; an id part, however, *replaces* the
stored id, so the reassembled id is the last truthy id part. -/
theorem C3_reassembly_accumulates_by_index (supportsReasoning : Bool)
    (ds : List ToolCallDelta) (hix : ∀ d ∈ ds, d.index = some 0)
    (hne : ds ≠ []) :
    (processStream supportsReasoning
        (ds.map (fun d => (⟨none, none, [d]⟩ : Delta)))).toolCalls =
      [⟨lastIdPart ds, joinParts (fun d => d.fnName) ds,
        joinParts (fun d => d.fnArgs) ds⟩] := by
  unfold processStream
  rw [processStream_fragments supportsReasoning ds initStream]
  cases ds with
  | nil => exact absurd rfl hne
  | cons d ds =>
    have h0 : applyToolCallDelta ([] : List RawToolCall) d =
        applyToolCallDelta [emptyRawCall] d := by
      simp [applyToolCallDelta, hix d (List.mem_cons_self d ds), padCalls,
        emptyRawCall]
    show (d :: ds).foldl applyToolCallDelta [] = _
    rw [List.foldl_cons, h0, ← List.foldl_cons,
      foldl_applyToolCallDelta_single (d :: ds) hix emptyRawCall]
    simp only [emptyRawCall, lastIdPart, String.empty_append]

/-- Witness for claim C3's amended statement: a single tool call whose
`name = "edit_file"` and JSON arguments text are split across 5 fragment
boundaries (mid-key and mid-value included) is reconstructed byte for
byte. -/
theorem C3_witness :
    (processStream false
        (([⟨some 0, some "call_9", some "edit_", none⟩,
           ⟨some 0, none, some "file", some "\x7b\"file_"⟩,
           ⟨some 0, none, none, some "path\":"⟩,
           ⟨some 0, none, none, some "\"a.py\""⟩,
           ⟨some 0, none, none, some "\x7d"⟩] : List ToolCallDelta).map
          (fun d => (⟨none, none, [d]⟩ : Delta)))).toolCalls =
      [⟨"call_9", "edit_file", "\x7b\"file_path\":\"a.py\"\x7d"⟩] := by
  rw [C3_reassembly_accumulates_by_index false _ (by decide) (by decide)]
  rfl

/-- A string has positive length exactly when it is not the empty string. -/
theorem string_length_pos_iff (s : String) : 0 < s.length ↔ s ≠ "" := by
  cases s with
  | mk data =>
    rw [String.length_mk, List.length_pos]
    simp [ne_eq, String.ext_iff]

/-- Claim C8 (counterexample).  The claimed per-call characterization
(`specTrivialCall`, worded as in the spec) disagrees with the code's
`_is_trivial_iteration` in both directions: a case-only edit `A` → `a` is
judged trivial by the code (both snippets are lowercased *before* the
whitespace-stripped comparison) but not by the claim's wording; a
whitespace-only-snippets edit `" "` → `""` satisfies the claim's
strip-identical test but is not judged trivial by the code (its
whitespace-equality check requires both stripped snippets non-empty). -/
theorem C8_triviality_differs_from_spec_wording :
    is_trivial_iteration c8Decode [⟨"i1", "edit_file", "CEX1"⟩] = true ∧
    ([⟨"i1", "edit_file", "CEX1"⟩] : List RawToolCall).any
        (specTrivialCall c8Decode) = false ∧
    is_trivial_iteration c8Decode [⟨"i2", "edit_file", "CEX2"⟩] = false ∧
    ([⟨"i2", "edit_file", "CEX2"⟩] : List RawToolCall).any
        (specTrivialCall c8Decode) = true :=
  ⟨rfl, rfl, rfl, rfl⟩

/-- The per-call content of the trivial-edit guard, as the code computes
it. -/
theorem isTrivialCall_iff (decodeArgs : String → Option (List (String × String)))
    (tc : RawToolCall) :
    isTrivialCall decodeArgs tc = true ↔
      (tc.name = "edit_file" ∧ ∃ args, decodeArgs tc.args = some args ∧
        ((pyStrip (argsGetLower args "original_snippet") ≠ "" ∧
          pyStrip (argsGetLower args "new_snippet") ≠ "" ∧
          stripAllSpace (argsGetLower args "original_snippet") =
            stripAllSpace (argsGetLower args "new_snippet")) ∨
         ∃ k ∈ trivial_keywords,
           pyContains (pyLower (argsGetLower args "original_snippet" ++ " " ++
             argsGetLower args "new_snippet")) k = true)) := by
  unfold isTrivialCall
  cases h : decodeArgs tc.args with
  | none => simp [h]
  | some args =>
    simp only [h, Bool.and_eq_true, decide_eq_true_eq, Bool.or_eq_true,
      beq_iff_eq, List.any_eq_true, Option.some.injEq]
    constructor
    · rintro ⟨hname, hbody⟩
      refine ⟨hname, args, rfl, ?_⟩
      rcases hbody with ⟨⟨h1, h2⟩, h3⟩ | ⟨k, hk, hc⟩
      · exact Or.inl ⟨(string_length_pos_iff _).mp h1,
          (string_length_pos_iff _).mp h2, h3⟩
      · exact Or.inr ⟨k, hk, hc⟩
    · rintro ⟨hname, args', hargs, hbody⟩
      cases hargs
      refine ⟨hname, ?_⟩
      rcases hbody with ⟨h1, h2, h3⟩ | ⟨k, hk, hc⟩
      · exact Or.inl ⟨⟨(string_length_pos_iff _).mpr h1,
          (string_length_pos_iff _).mpr h2⟩, h3⟩
      · exact Or.inr ⟨k, hk, hc⟩

/-- Claim C8 (amended).  The trivial-edit guard judges a batch trivial iff
some `edit_file` call in it (whose arguments decode) is trivial, where a
single call is trivial iff either (a) both *lowercased* snippets strip to
something non-empty and stripping all whitespace from the lowercased
original and lowercased new snippet yields identical strings, or (b) the
combined lowercased original+new text contains one of the fixed cosmetic
keywords; calls to any tool other than `edit_file`, and calls whose
arguments fail to decode, never mark a batch trivial. -/
theorem C8_trivial_guard_characterization
    (decodeArgs : String → Option (List (String × String)))
    (tool_calls : List RawToolCall) :
    is_trivial_iteration decodeArgs tool_calls = true ↔
      ∃ tc ∈ tool_calls, tc.name = "edit_file" ∧
        ∃ args, decodeArgs tc.args = some args ∧
          ((pyStrip (argsGetLower args "original_snippet") ≠ "" ∧
            pyStrip (argsGetLower args "new_snippet") ≠ "" ∧
            stripAllSpace (argsGetLower args "original_snippet") =
              stripAllSpace (argsGetLower args "new_snippet")) ∨
           ∃ k ∈ trivial_keywords,
             pyContains (pyLower (argsGetLower args "original_snippet" ++ " " ++
               argsGetLower args "new_snippet")) k = true) := by
  unfold is_trivial_iteration
  rw [List.any_eq_true]
  constructor
  · rintro ⟨tc, htc, hcall⟩
    exact ⟨tc, htc, (isTrivialCall_iff decodeArgs tc).mp hcall⟩
  · rintro ⟨tc, htc, hcall⟩
    exact ⟨tc, htc, (isTrivialCall_iff decodeArgs tc).mpr hcall⟩

/-! Step lemmas: one `while`-pass of `loopGo` under each of its five
branches. -/

/-- Step (transport failure): the exception from the endpoint call
propagates. -/
theorem loopGo_step_error (cfg : LoopConfig) (m fuel iteration consec : Nat)
    (history : List Entry) (requests : Nat) (execLog : List (List RawToolCall))
    (e : String) (hs : cfg.script (iteration + 1) = .error e) :
    loopGo cfg m (fuel + 1) iteration consec history requests execLog =
      .error e := by
  rw [loopGo, hs]

/-- Step (no tool calls): the loop appends a content-bearing assistant entry
— the streamed text when it has a non-whitespace character, the fallback
placeholder otherwise — and breaks. -/
theorem loopGo_step_final (cfg : LoopConfig) (m fuel iteration consec : Nat)
    (history : List Entry) (requests : Nat) (execLog : List (List RawToolCall))
    (ds : List Delta) (hs : cfg.script (iteration + 1) = .ok ds)
    (htc : (processStream cfg.supportsReasoning ds).toolCalls = []) :
    loopGo cfg m (fuel + 1) iteration consec history requests execLog =
      .ok ⟨history ++ [.assistant (some
          (match (if (processStream cfg.supportsReasoning ds).finalContent ≠ ""
                  then some (processStream cfg.supportsReasoning ds).finalContent
                  else none : Option String) with
           | some s => if pyStrip s ≠ "" then s else "I have completed the analysis."
           | none => "I have completed the analysis.")) []],
        iteration + 1, requests + 1, execLog, false,
        decide (m ≤ iteration + 1), true⟩ := by
  rw [loopGo, hs]
  simp only [htc, List.isEmpty_nil, Bool.not_true, Bool.false_eq_true, if_false]

/-- Step (all accumulated calls nameless): nothing is appended and the loop
continues. -/
theorem loopGo_step_nameless (cfg : LoopConfig) (m fuel iteration consec : Nat)
    (history : List Entry) (requests : Nat) (execLog : List (List RawToolCall))
    (ds : List Delta) (hs : cfg.script (iteration + 1) = .ok ds)
    (htc : (processStream cfg.supportsReasoning ds).toolCalls ≠ [])
    (hfmt : formatToolCalls cfg.millis
      (processStream cfg.supportsReasoning ds).toolCalls = []) :
    loopGo cfg m (fuel + 1) iteration consec history requests execLog =
      loopGo cfg m fuel (iteration + 1) consec history (requests + 1) execLog := by
  rw [loopGo, hs]
  dsimp only
  rw [if_pos (by simp [List.isEmpty_iff, htc] :
      (!(processStream cfg.supportsReasoning ds).toolCalls.isEmpty) = true)]
  rw [if_neg (by simp [hfmt] :
      ¬(!(formatToolCalls cfg.millis
        (processStream cfg.supportsReasoning ds).toolCalls).isEmpty) = true)]

/-- Step (trivial threshold reached): the loop appends the assistant entry
carrying the batch, then breaks *without executing it* — returning success
with the trivial-stop marker. -/
theorem loopGo_step_trivial_break (cfg : LoopConfig)
    (m fuel iteration consec : Nat) (history : List Entry) (requests : Nat)
    (execLog : List (List RawToolCall)) (ds : List Delta)
    (hs : cfg.script (iteration + 1) = .ok ds)
    (hfmt : formatToolCalls cfg.millis
      (processStream cfg.supportsReasoning ds).toolCalls ≠ [])
    (htriv : is_trivial_iteration cfg.decodeArgs
      (formatToolCalls cfg.millis
        (processStream cfg.supportsReasoning ds).toolCalls) = true)
    (hcnt : 3 ≤ consec + 1) :
    loopGo cfg m (fuel + 1) iteration consec history requests execLog =
      .ok ⟨history ++ [.assistant none (formatToolCalls cfg.millis
          (processStream cfg.supportsReasoning ds).toolCalls)],
        iteration + 1, requests + 1, execLog, true,
        decide (m ≤ iteration + 1), true⟩ := by
  have htc : (processStream cfg.supportsReasoning ds).toolCalls ≠ [] := by
    intro h
    exact hfmt (by rw [h]; rfl)
  rw [loopGo, hs]
  dsimp only
  rw [if_pos (by simp [List.isEmpty_iff, htc] :
      (!(processStream cfg.supportsReasoning ds).toolCalls.isEmpty) = true)]
  rw [if_pos (by simp [List.isEmpty_iff, hfmt] :
      (!(formatToolCalls cfg.millis
        (processStream cfg.supportsReasoning ds).toolCalls).isEmpty) = true)]
  rw [if_pos htriv, if_pos hcnt]

/-- Step (execute the batch): the loop appends the assistant entry, executes
every call of the batch — appending its tool entries — and recurses with the
updated trivial counter. -/
theorem loopGo_step_execute (cfg : LoopConfig) (m fuel iteration consec : Nat)
    (history : List Entry) (requests : Nat) (execLog : List (List RawToolCall))
    (ds : List Delta) (hs : cfg.script (iteration + 1) = .ok ds)
    (hfmt : formatToolCalls cfg.millis
      (processStream cfg.supportsReasoning ds).toolCalls ≠ [])
    (hcnt : (if is_trivial_iteration cfg.decodeArgs
        (formatToolCalls cfg.millis
          (processStream cfg.supportsReasoning ds).toolCalls) = true
      then consec + 1 else 0) < 3) :
    loopGo cfg m (fuel + 1) iteration consec history requests execLog =
      loopGo cfg m fuel (iteration + 1)
        (if is_trivial_iteration cfg.decodeArgs
            (formatToolCalls cfg.millis
              (processStream cfg.supportsReasoning ds).toolCalls) = true
         then consec + 1 else 0)
        (execBatch cfg.exec
          (history ++ [.assistant none (formatToolCalls cfg.millis
            (processStream cfg.supportsReasoning ds).toolCalls)])
          (formatToolCalls cfg.millis
            (processStream cfg.supportsReasoning ds).toolCalls))
        (requests + 1)
        (execLog ++ [formatToolCalls cfg.millis
          (processStream cfg.supportsReasoning ds).toolCalls]) := by
  have htc : (processStream cfg.supportsReasoning ds).toolCalls ≠ [] := by
    intro h
    exact hfmt (by rw [h]; rfl)
  rw [loopGo, hs]
  dsimp only
  rw [if_pos (by simp [List.isEmpty_iff, htc] :
      (!(processStream cfg.supportsReasoning ds).toolCalls.isEmpty) = true)]
  rw [if_pos (by simp [List.isEmpty_iff, hfmt] :
      (!(formatToolCalls cfg.millis
        (processStream cfg.supportsReasoning ds).toolCalls).isEmpty) = true)]
  rw [if_neg (Nat.not_le.mpr hcnt)]

/-- The loop issues at most `fuel` further endpoint requests, whatever the
endpoint and executor do. -/
theorem loopGo_requests_le (cfg : LoopConfig) (m : Nat) :
    ∀ (fuel iteration consec : Nat) (history : List Entry) (requests : Nat)
      (execLog : List (List RawToolCall)) (r : LoopFinal),
      loopGo cfg m fuel iteration consec history requests execLog = .ok r →
      r.requests ≤ requests + fuel
  | 0, iteration, consec, history, requests, execLog, r, h => by
    rw [loopGo] at h
    cases h
    show requests ≤ requests + 0
    omega
  | fuel + 1, iteration, consec, history, requests, execLog, r, h => by
    cases hs : cfg.script (iteration + 1) with
    | error e =>
      rw [loopGo_step_error cfg m fuel iteration consec history requests execLog
        e hs] at h
      cases h
    | ok ds =>
      cases htc : (processStream cfg.supportsReasoning ds).toolCalls with
      | nil =>
        rw [loopGo_step_final cfg m fuel iteration consec history requests
          execLog ds hs htc] at h
        cases h
        show requests + 1 ≤ requests + (fuel + 1)
        omega
      | cons tc0 tcs =>
        have htc' : (processStream cfg.supportsReasoning ds).toolCalls ≠ [] := by
          rw [htc]
          simp
        by_cases hfmt : formatToolCalls cfg.millis
            (processStream cfg.supportsReasoning ds).toolCalls = []
        · rw [loopGo_step_nameless cfg m fuel iteration consec history requests
            execLog ds hs htc' hfmt] at h
          have := loopGo_requests_le cfg m fuel (iteration + 1) consec history
            (requests + 1) execLog r h
          omega
        · by_cases hcnt : 3 ≤ (if is_trivial_iteration cfg.decodeArgs
              (formatToolCalls cfg.millis
                (processStream cfg.supportsReasoning ds).toolCalls) = true
            then consec + 1 else 0)
          · cases htriv : is_trivial_iteration cfg.decodeArgs
                (formatToolCalls cfg.millis
                  (processStream cfg.supportsReasoning ds).toolCalls) with
            | false =>
              rw [htriv] at hcnt
              simp at hcnt
            | true =>
              rw [htriv, if_pos rfl] at hcnt
              rw [loopGo_step_trivial_break cfg m fuel iteration consec history
                requests execLog ds hs hfmt htriv hcnt] at h
              cases h
              show requests + 1 ≤ requests + (fuel + 1)
              omega
          · rw [loopGo_step_execute cfg m fuel iteration consec history requests
              execLog ds hs hfmt (Nat.not_le.mp hcnt)] at h
            have := loopGo_requests_le cfg m fuel (iteration + 1) _ _
              (requests + 1) _ r h
            omega

/-- A run whose endpoint always streams a non-empty, non-trivial tool-call
batch executes one batch per pass and spends all its fuel. -/
theorem loopGo_nontrivial_run (cfg : LoopConfig) (m : Nat)
    (hscript : ∀ n, ∃ ds, cfg.script n = .ok ds ∧
      formatToolCalls cfg.millis
        (processStream cfg.supportsReasoning ds).toolCalls ≠ [] ∧
      is_trivial_iteration cfg.decodeArgs
        (formatToolCalls cfg.millis
          (processStream cfg.supportsReasoning ds).toolCalls) = false) :
    ∀ (fuel iteration : Nat) (history : List Entry) (requests : Nat)
      (execLog : List (List RawToolCall)),
      ∃ r, loopGo cfg m fuel iteration 0 history requests execLog = .ok r ∧
        r.requests = requests + fuel ∧
        r.execLog.length = execLog.length + fuel ∧
        r.iteration = iteration + fuel ∧ r.success = true ∧
        r.trivialStop = false ∧
        r.maxIterWarned = decide (m ≤ iteration + fuel)
  | 0, iteration, history, requests, execLog => by
    refine ⟨_, by rw [loopGo], ?_, ?_, ?_, rfl, rfl, ?_⟩ <;> simp
  | fuel + 1, iteration, history, requests, execLog => by
    obtain ⟨ds, hs, hfmt, htriv⟩ := hscript (iteration + 1)
    rw [loopGo_step_execute cfg m fuel iteration 0 history requests execLog ds
      hs hfmt (by simp [htriv])]
    rw [show (if is_trivial_iteration cfg.decodeArgs
        (formatToolCalls cfg.millis
          (processStream cfg.supportsReasoning ds).toolCalls) = true
      then 0 + 1 else 0) = 0 by simp [htriv]]
    obtain ⟨r, hr, h1, h2, h3, h4, h5, h6⟩ :=
      loopGo_nontrivial_run cfg m hscript fuel (iteration + 1) _ (requests + 1)
        (execLog ++ [formatToolCalls cfg.millis
          (processStream cfg.supportsReasoning ds).toolCalls])
    refine ⟨r, hr, ?_, ?_, ?_, h4, h5, ?_⟩
    · rw [h1]
      omega
    · rw [h2]
      simp only [List.length_append, List.length_cons, List.length_nil]
      omega
    · rw [h3]
      omega
    · have harith : iteration + 1 + fuel = iteration + (fuel + 1) := by omega
      rw [h6, harith]

/-- Claim C9 (confirmed).  The loop performs at most `max_iterations`
request cycles, whatever the endpoint does; and when the endpoint streams a
non-empty non-trivial tool-call batch on every iteration, the run stops
exactly at the cap, having issued exactly `max_iterations` requests and
executed exactly `max_iterations` tool batches (not one more), prints the
"max iterations reached, task may be incomplete" warning, and still
returns `success = true`. -/
theorem C9_iteration_cap (cfg : LoopConfig) (history : List Entry)
    (max_iterations : Nat)
    (hscript : ∀ n, ∃ ds, cfg.script n = .ok ds ∧
      formatToolCalls cfg.millis
        (processStream cfg.supportsReasoning ds).toolCalls ≠ [] ∧
      is_trivial_iteration cfg.decodeArgs
        (formatToolCalls cfg.millis
          (processStream cfg.supportsReasoning ds).toolCalls) = false) :
    (∀ (cfg' : LoopConfig) (history' : List Entry) (r : LoopFinal),
      runLoop cfg' history' max_iterations = .ok r →
      r.requests ≤ max_iterations) ∧
    ∃ r, runLoop cfg history max_iterations = .ok r ∧
      r.requests = max_iterations ∧ r.execLog.length = max_iterations ∧
      r.iteration = max_iterations ∧ r.maxIterWarned = true ∧
      r.success = true ∧ r.trivialStop = false := by
  constructor
  · intro cfg' history' r h
    have := loopGo_requests_le cfg' max_iterations max_iterations 0 0 history'
      0 [] r h
    omega
  · obtain ⟨r, hr, h1, h2, h3, h4, h5, h6⟩ :=
      loopGo_nontrivial_run cfg max_iterations hscript max_iterations 0 history
        0 []
    refine ⟨r, hr, by omega, by simpa using h2, by omega, ?_, h4, h5⟩
    rw [h6]
    simp

/-- Witness for claim C9 at the spec's scenario: cap 3 with an endpoint that
always streams one non-trivial `read_file` call — exactly 3 requests, 3
executed batches, the incompleteness warning, and `success = true`. -/
theorem C9_witness :
    ∃ r, runLoop cfgRead initialHistory 3 = .ok r ∧ r.requests = 3 ∧
      r.execLog.length = 3 ∧ r.iteration = 3 ∧ r.maxIterWarned = true ∧
      r.success = true ∧ r.trivialStop = false :=
  (C9_iteration_cap cfgRead initialHistory 3
    (fun _ => ⟨[readDelta], rfl, by decide, by decide⟩)).2

/-- Claim C5 (confirmed).  The consecutive-trivial counter semantics: (a)
from any loop state whose counter stands at 2, one more trivial batch makes
the counter reach 3 and the loop terminates at once — appending the
assistant entry but executing none of its tools, issuing no further
request, and returning success; (b) on an endpoint whose first three
iterations each stream a non-empty trivial batch, the run (cap ≥ 3)
terminates at iteration 3 with `success = true` and the trivial-stop
marker, having issued exactly 3 requests and executed only the first 2
batches. -/
theorem C5_trivial_counter_terminates (cfg : LoopConfig) (m : Nat)
    (hm : 3 ≤ m) (history : List Entry)
    (h1 : ∃ ds, cfg.script 1 = .ok ds ∧
      formatToolCalls cfg.millis
        (processStream cfg.supportsReasoning ds).toolCalls ≠ [] ∧
      is_trivial_iteration cfg.decodeArgs
        (formatToolCalls cfg.millis
          (processStream cfg.supportsReasoning ds).toolCalls) = true)
    (h2 : ∃ ds, cfg.script 2 = .ok ds ∧
      formatToolCalls cfg.millis
        (processStream cfg.supportsReasoning ds).toolCalls ≠ [] ∧
      is_trivial_iteration cfg.decodeArgs
        (formatToolCalls cfg.millis
          (processStream cfg.supportsReasoning ds).toolCalls) = true)
    (h3 : ∃ ds, cfg.script 3 = .ok ds ∧
      formatToolCalls cfg.millis
        (processStream cfg.supportsReasoning ds).toolCalls ≠ [] ∧
      is_trivial_iteration cfg.decodeArgs
        (formatToolCalls cfg.millis
          (processStream cfg.supportsReasoning ds).toolCalls) = true) :
    (∀ (fuel iteration : Nat) (history' : List Entry) (requests : Nat)
      (execLog : List (List RawToolCall)) (ds : List Delta),
      cfg.script (iteration + 1) = .ok ds →
      formatToolCalls cfg.millis
        (processStream cfg.supportsReasoning ds).toolCalls ≠ [] →
      is_trivial_iteration cfg.decodeArgs
        (formatToolCalls cfg.millis
          (processStream cfg.supportsReasoning ds).toolCalls) = true →
      loopGo cfg m (fuel + 1) iteration 2 history' requests execLog =
        .ok ⟨history' ++ [.assistant none (formatToolCalls cfg.millis
            (processStream cfg.supportsReasoning ds).toolCalls)],
          iteration + 1, requests + 1, execLog, true,
          decide (m ≤ iteration + 1), true⟩) ∧
    ∃ r, runLoop cfg history m = .ok r ∧ r.trivialStop = true ∧
      r.success = true ∧ r.requests = 3 ∧ r.iteration = 3 ∧
      r.execLog.length = 2 := by
  constructor
  · intro fuel iteration history' requests execLog ds hs hfmt htriv
    exact loopGo_step_trivial_break cfg m fuel iteration 2 history' requests
      execLog ds hs hfmt htriv (Nat.le_refl 3)
  · obtain ⟨ds1, hs1, hf1, ht1⟩ := h1
    obtain ⟨ds2, hs2, hf2, ht2⟩ := h2
    obtain ⟨ds3, hs3, hf3, ht3⟩ := h3
    obtain ⟨k, hk⟩ := Nat.exists_eq_add_of_le hm
    have hk' : m = k + 3 := by omega
    subst hk'
    unfold runLoop
    rw [loopGo_step_execute cfg (k + 3) (k + 2) 0 0 history 0 [] ds1 hs1 hf1
      (by simp [ht1])]
    rw [show (if is_trivial_iteration cfg.decodeArgs
        (formatToolCalls cfg.millis
          (processStream cfg.supportsReasoning ds1).toolCalls) = true
      then 0 + 1 else 0) = 1 by simp [ht1]]
    rw [loopGo_step_execute cfg (k + 3) (k + 1) 1 1 _ (0 + 1) _ ds2 hs2
      hf2 (by simp [ht2])]
    rw [show (if is_trivial_iteration cfg.decodeArgs
        (formatToolCalls cfg.millis
          (processStream cfg.supportsReasoning ds2).toolCalls) = true
      then 1 + 1 else 0) = 2 by simp [ht2]]
    rw [loopGo_step_trivial_break cfg (k + 3) k 2 2 _ (0 + 1 + 1) _ ds3 hs3
      hf3 ht3 (Nat.le_refl 3)]
    refine ⟨_, rfl, rfl, rfl, rfl, rfl, ?_⟩
    simp

/-- Witness for claim C5: the always-trivial endpoint under the default cap
10 stops at iteration 3 with success, 3 requests, and only 2 executed
batches. -/
theorem C5_witness :
    ∃ r, runLoop cfgTrivial initialHistory 10 = .ok r ∧
      r.trivialStop = true ∧ r.success = true ∧ r.requests = 3 ∧
      r.iteration = 3 ∧ r.execLog.length = 2 :=
  (C5_trivial_counter_terminates cfgTrivial 10 (by decide) initialHistory
    ⟨[trivDelta], rfl, by decide, by decide⟩
    ⟨[trivDelta], rfl, by decide, by decide⟩
    ⟨[trivDelta], rfl, by decide, by decide⟩).2

/-- Non-assistant entries satisfy the assistant-shape invariant trivially. -/
theorem assistantShapeOk_of_not_assistant (e : Entry)
    (h : e.isAssistant = false) : assistantShapeOk e := by
  cases e with
  | assistant c tcs => simp [Entry.isAssistant] at h
  | system c => trivial
  | user c => trivial
  | tool tid c => trivial

/-- Every entry the batch executor leaves in the history is an original
entry, an executor-appended `system` entry, or a `tool` result entry. -/
theorem execBatch_mem
    (exec : List Entry → RawToolCall → List Entry × Except String String)
    (hexec : ExecOnlySystem exec) :
    ∀ (tcs : List RawToolCall) (history : List Entry) (e : Entry),
      e ∈ execBatch exec history tcs →
      e ∈ history ∨ e.isSystem = true ∨ e.isTool = true
  | [], history, e, h => Or.inl h
  | tc :: rest, history, e, h => by
    rw [execBatch] at h
    rcases execBatch_mem exec hexec rest _ e h with h' | h' | h'
    · rcases List.mem_append.mp h' with h'' | h''
      · rcases List.mem_append.mp h'' with h3 | h3
        · exact Or.inl h3
        · exact Or.inr (Or.inl (hexec history tc e h3))
      · rcases List.mem_singleton.mp h'' with rfl
        exact Or.inr (Or.inr rfl)
    · exact Or.inr (Or.inl h')
    · exact Or.inr (Or.inr h')

/-- Every entry a loop run adds to the history satisfies the
assistant-shape invariant (assuming the executor appends only `system`
entries, as `execute_function_call_dict` does). -/
theorem loopGo_entries_shape (cfg : LoopConfig) (m : Nat)
    (hexec : ExecOnlySystem cfg.exec) :
    ∀ (fuel iteration consec : Nat) (history : List Entry) (requests : Nat)
      (execLog : List (List RawToolCall)) (r : LoopFinal),
      loopGo cfg m fuel iteration consec history requests execLog = .ok r →
      ∀ e ∈ r.history, e ∈ history ∨ assistantShapeOk e
  | 0, iteration, consec, history, requests, execLog, r, h => by
    rw [loopGo] at h
    cases h
    exact fun e he => Or.inl he
  | fuel + 1, iteration, consec, history, requests, execLog, r, h => by
    cases hs : cfg.script (iteration + 1) with
    | error e =>
      rw [loopGo_step_error cfg m fuel iteration consec history requests
        execLog e hs] at h
      cases h
    | ok ds =>
      cases htc : (processStream cfg.supportsReasoning ds).toolCalls with
      | nil =>
        rw [loopGo_step_final cfg m fuel iteration consec history requests
          execLog ds hs htc] at h
        cases h
        intro e he
        rcases List.mem_append.mp he with h' | h'
        · exact Or.inl h'
        · rcases List.mem_singleton.mp h' with rfl
          refine Or.inr ⟨fun hne => absurd rfl hne, fun _ => ?_⟩
          by_cases hfc : (processStream cfg.supportsReasoning ds).finalContent = ""
          · exact ⟨"I have completed the analysis.", by simp [hfc], by simp⟩
          · by_cases hst :
                pyStrip (processStream cfg.supportsReasoning ds).finalContent = ""
            · exact ⟨"I have completed the analysis.", by simp [hfc, hst], by simp⟩
            · exact ⟨(processStream cfg.supportsReasoning ds).finalContent,
                by simp [hfc, hst], hfc⟩
      | cons tc0 tcs =>
        have htc' : (processStream cfg.supportsReasoning ds).toolCalls ≠ [] := by
          rw [htc]
          simp
        by_cases hfmt : formatToolCalls cfg.millis
            (processStream cfg.supportsReasoning ds).toolCalls = []
        · rw [loopGo_step_nameless cfg m fuel iteration consec history requests
            execLog ds hs htc' hfmt] at h
          exact loopGo_entries_shape cfg m hexec fuel (iteration + 1) consec
            history (requests + 1) execLog r h
        · have hshape : assistantShapeOk (.assistant none (formatToolCalls
              cfg.millis (processStream cfg.supportsReasoning ds).toolCalls)) :=
            ⟨fun _ => rfl, fun hnil => absurd hnil hfmt⟩
          by_cases hcnt : 3 ≤ (if is_trivial_iteration cfg.decodeArgs
              (formatToolCalls cfg.millis
                (processStream cfg.supportsReasoning ds).toolCalls) = true
            then consec + 1 else 0)
          · cases htriv : is_trivial_iteration cfg.decodeArgs
                (formatToolCalls cfg.millis
                  (processStream cfg.supportsReasoning ds).toolCalls) with
            | false =>
              rw [htriv] at hcnt
              simp at hcnt
            | true =>
              rw [htriv, if_pos rfl] at hcnt
              rw [loopGo_step_trivial_break cfg m fuel iteration consec history
                requests execLog ds hs hfmt htriv hcnt] at h
              cases h
              intro e he
              rcases List.mem_append.mp he with h' | h'
              · exact Or.inl h'
              · rcases List.mem_singleton.mp h' with rfl
                exact Or.inr hshape
          · rw [loopGo_step_execute cfg m fuel iteration consec history requests
              execLog ds hs hfmt (Nat.not_le.mp hcnt)] at h
            intro e he
            rcases loopGo_entries_shape cfg m hexec fuel (iteration + 1) _ _
              (requests + 1) _ r h e he with h' | h'
            · rcases execBatch_mem cfg.exec hexec _ _ e h' with h'' | h'' | h''
              · rcases List.mem_append.mp h'' with h3 | h3
                · exact Or.inl h3
                · rcases List.mem_singleton.mp h3 with rfl
                  exact Or.inr hshape
              · exact Or.inr (assistantShapeOk_of_not_assistant e
                  (by cases e <;> simp_all [Entry.isSystem, Entry.isAssistant]))
              · exact Or.inr (assistantShapeOk_of_not_assistant e
                  (by cases e <;> simp_all [Entry.isTool, Entry.isAssistant]))
            · exact Or.inr h'

/-- Claim C7 (amended; the fallback text differs from the claim's).  Every
assistant entry the loop appends satisfies the shape invariant: with a
non-empty tool-call list its content is the null marker (never the empty
string), without tool calls its content is a non-empty string — so no
appended assistant entry lacks both content and tool calls; and when the
model produced neither text with a non-whitespace character nor any tool
call, the substituted placeholder content is
`"I have completed the analysis."`. -/
theorem C7_assistant_shape_invariant (cfg : LoopConfig) (history : List Entry)
    (m : Nat) (hexec : ExecOnlySystem cfg.exec) (r : LoopFinal)
    (h : runLoop cfg history m = .ok r) :
    (∀ e ∈ r.history, e ∈ history ∨ assistantShapeOk e) ∧
    (∀ ds, cfg.script 1 = .ok ds →
      (processStream cfg.supportsReasoning ds).toolCalls = [] →
      pyStrip (processStream cfg.supportsReasoning ds).finalContent = "" →
      1 ≤ m →
      r.history = history ++
        [.assistant (some "I have completed the analysis.") []]) := by
  constructor
  · exact loopGo_entries_shape cfg m hexec m 0 0 history 0 [] r h
  · intro ds hs htc hstrip hm
    obtain ⟨k, hk⟩ := Nat.exists_eq_add_of_le hm
    have hk' : m = k + 1 := by omega
    subst hk'
    unfold runLoop at h
    rw [loopGo_step_final cfg (k + 1) k 0 0 history 0 [] ds hs htc] at h
    cases h
    show history ++ [_] = history ++ [_]
    congr 2
    by_cases hfc : (processStream cfg.supportsReasoning ds).finalContent = ""
    · simp [hfc]
    · simp [hfc, hstrip]

/-- Claim C7 (counterexample to the claimed fallback text).  When the model
streams neither content nor tool calls, the substituted placeholder is
`"I have completed the analysis."` — which is not (and does not even
contain) the claimed `"task completed"`. -/
theorem C7_fallback_is_not_task_completed :
    (∃ r, runLoop cfgEmptyResponse initialHistory 10 = .ok r ∧
      r.history = initialHistory ++
        [.assistant (some "I have completed the analysis.") []]) ∧
    pyContains "I have completed the analysis." "task completed" = false ∧
    ("I have completed the analysis." : String) ≠ "task completed" :=
  ⟨⟨_, rfl, rfl⟩, rfl, by decide⟩

/-- Witness for claim C7 at a concrete run: the empty-response endpoint's
transcript satisfies the shape invariant, and its appended assistant entry
carries the placeholder. -/
theorem C7_witness :
    ∃ r, runLoop cfgEmptyResponse initialHistory 10 = .ok r ∧
      (∀ e ∈ r.history, e ∈ initialHistory ∨ assistantShapeOk e) ∧
      r.history = initialHistory ++
        [.assistant (some "I have completed the analysis.") []] := by
  have hexec : ExecOnlySystem cfgEmptyResponse.exec := by
    intro h tc e he
    exact absurd he (List.not_mem_nil e)
  obtain ⟨hshape, hfb⟩ := C7_assistant_shape_invariant cfgEmptyResponse
    initialHistory 10 hexec _ rfl
  exact ⟨_, rfl, hshape, hfb [] rfl rfl rfl (by decide)⟩

/-- Folding the pairing checker over `system` entries leaves its state
unchanged. -/
theorem foldlM_pairStep_systems :
    ∀ (l : List Entry), (∀ e ∈ l, e.isSystem = true) →
    ∀ st : Option (List String), l.foldlM pairStep st = some st
  | [], _, st => rfl
  | e :: rest, h, st => by
    have he := h e (List.mem_cons_self e rest)
    cases e with
    | system c =>
      rw [List.foldlM_cons]
      show (rest.foldlM pairStep st) = some st
      exact foldlM_pairStep_systems rest
        (fun e' he' => h e' (List.mem_cons_of_mem _ he')) st
    | user c => simp [Entry.isSystem] at he
    | assistant c tcs => simp [Entry.isSystem] at he
    | tool tid c => simp [Entry.isSystem] at he

/-- The segment the batch executor appends answers the batch's declared call
ids exactly, in order: folding the pairing checker over it from the state
that expects those ids ends with every id answered. -/
theorem execBatch_pair
    (exec : List Entry → RawToolCall → List Entry × Except String String)
    (hexec : ExecOnlySystem exec) :
    ∀ (tcs : List RawToolCall) (h0 : List Entry),
      ∃ mid, execBatch exec h0 tcs = h0 ++ mid ∧
        mid.foldlM pairStep (some (tcs.map RawToolCall.id)) = some (some [])
  | [], h0 => ⟨[], (List.append_nil h0).symm, rfl⟩
  | tc :: rest, h0 => by
    rw [execBatch]
    obtain ⟨mid', hmid', hfold'⟩ := execBatch_pair exec hexec rest
      (h0 ++ (exec h0 tc).1 ++ [.tool tc.id
        (match (exec h0 tc).2 with
         | .ok r => r
         | .error e => "Error: " ++ e)])
    refine ⟨(exec h0 tc).1 ++ (.tool tc.id
        (match (exec h0 tc).2 with
         | .ok r => r
         | .error e => "Error: " ++ e) :: mid'), ?_, ?_⟩
    · rw [hmid']
      simp [List.append_assoc]
    · rw [List.foldlM_append, foldlM_pairStep_systems (exec h0 tc).1
        (hexec h0 tc) _]
      show (Entry.tool tc.id _ :: mid').foldlM pairStep
        (some ((tc :: rest).map RawToolCall.id)) = some (some [])
      rw [List.foldlM_cons]
      show (removeOne tc.id (tc.id :: rest.map RawToolCall.id)).map some >>=
        mid'.foldlM pairStep = some (some [])
      rw [show removeOne tc.id (tc.id :: rest.map RawToolCall.id) =
        some (rest.map RawToolCall.id) by simp [removeOne]]
      exact hfold'

/-- The pairing shape of everything one loop run appends: from any state
with no unanswered call ids, folding the pairing checker over the appended
segment again ends with no unanswered ids — except that a trivial-stop run
ends in one final assistant entry whose non-empty tool-call batch is never
answered. -/
theorem loopGo_pairing (cfg : LoopConfig) (m : Nat)
    (hexec : ExecOnlySystem cfg.exec) :
    ∀ (fuel iteration consec : Nat) (history : List Entry) (requests : Nat)
      (execLog : List (List RawToolCall)) (r : LoopFinal),
      loopGo cfg m fuel iteration consec history requests execLog = .ok r →
      ∃ ap, r.history = history ++ ap ∧
        ∀ st : Option (List String), (st = none ∨ st = some []) →
          (r.trivialStop = false →
            ∃ st', ap.foldlM pairStep st = some st' ∧
              (st' = none ∨ st' = some [])) ∧
          (r.trivialStop = true →
            ∃ pre tcs, ap = pre ++ [.assistant none tcs] ∧ tcs ≠ [] ∧
              ∃ st', pre.foldlM pairStep st = some st' ∧
                (st' = none ∨ st' = some []))
  | 0, iteration, consec, history, requests, execLog, r, h => by
    rw [loopGo] at h
    cases h
    refine ⟨[], (List.append_nil history).symm, fun st hst => ⟨?_, ?_⟩⟩
    · exact fun _ => ⟨st, rfl, hst⟩
    · intro htr
      exact absurd htr (by simp)
  | fuel + 1, iteration, consec, history, requests, execLog, r, h => by
    cases hs : cfg.script (iteration + 1) with
    | error e =>
      rw [loopGo_step_error cfg m fuel iteration consec history requests
        execLog e hs] at h
      cases h
    | ok ds =>
      cases htc : (processStream cfg.supportsReasoning ds).toolCalls with
      | nil =>
        rw [loopGo_step_final cfg m fuel iteration consec history requests
          execLog ds hs htc] at h
        cases h
        refine ⟨[.assistant (some _) []], rfl, fun st hst => ⟨?_, ?_⟩⟩
        · refine fun _ => ⟨none, ?_, Or.inl rfl⟩
          rcases hst with rfl | rfl <;> rfl
        · intro htr
          exact absurd htr (by simp)
      | cons tc0 tcs =>
        have htc' : (processStream cfg.supportsReasoning ds).toolCalls ≠ [] := by
          rw [htc]
          simp
        by_cases hfmt : formatToolCalls cfg.millis
            (processStream cfg.supportsReasoning ds).toolCalls = []
        · rw [loopGo_step_nameless cfg m fuel iteration consec history requests
            execLog ds hs htc' hfmt] at h
          exact loopGo_pairing cfg m hexec fuel (iteration + 1) consec history
            (requests + 1) execLog r h
        · have hne : (formatToolCalls cfg.millis
              (processStream cfg.supportsReasoning ds).toolCalls).isEmpty
                = false := by
            simp [List.isEmpty_iff, hfmt]
          have hA : ∀ st : Option (List String), (st = none ∨ st = some []) →
              pairStep st (.assistant none (formatToolCalls cfg.millis
                (processStream cfg.supportsReasoning ds).toolCalls)) =
              some (some ((formatToolCalls cfg.millis
                (processStream cfg.supportsReasoning ds).toolCalls).map
                  RawToolCall.id)) := by
            intro st hst
            rcases hst with rfl | rfl <;> simp [pairStep, hne]
          by_cases hcnt : 3 ≤ (if is_trivial_iteration cfg.decodeArgs
              (formatToolCalls cfg.millis
                (processStream cfg.supportsReasoning ds).toolCalls) = true
            then consec + 1 else 0)
          · cases htriv : is_trivial_iteration cfg.decodeArgs
                (formatToolCalls cfg.millis
                  (processStream cfg.supportsReasoning ds).toolCalls) with
            | false =>
              rw [htriv] at hcnt
              simp at hcnt
            | true =>
              rw [htriv, if_pos rfl] at hcnt
              rw [loopGo_step_trivial_break cfg m fuel iteration consec history
                requests execLog ds hs hfmt htriv hcnt] at h
              cases h
              refine ⟨[.assistant none _], rfl, fun st hst => ⟨?_, ?_⟩⟩
              · intro htr
                exact absurd htr (by simp)
              · exact fun _ => ⟨[], _, (List.nil_append _).symm, hfmt,
                  st, rfl, hst⟩
          · rw [loopGo_step_execute cfg m fuel iteration consec history requests
              execLog ds hs hfmt (Nat.not_le.mp hcnt)] at h
            obtain ⟨mid, hmid, hfold⟩ := execBatch_pair cfg.exec hexec
              (formatToolCalls cfg.millis
                (processStream cfg.supportsReasoning ds).toolCalls)
              (history ++ [.assistant none (formatToolCalls cfg.millis
                (processStream cfg.supportsReasoning ds).toolCalls)])
            rw [hmid] at h
            obtain ⟨ap', hap', hcond⟩ := loopGo_pairing cfg m hexec fuel
              (iteration + 1) _ _ (requests + 1) _ r h
            have hchain : ∀ (l : List Entry) (st : Option (List String)),
                (st = none ∨ st = some []) →
                ((Entry.assistant none (formatToolCalls cfg.millis
                    (processStream cfg.supportsReasoning ds).toolCalls) ::
                  (mid ++ l)).foldlM pairStep st) =
                l.foldlM pairStep (some []) := by
              intro l st hst
              rw [List.foldlM_cons, hA st hst]
              show (mid ++ l).foldlM pairStep _ = _
              rw [List.foldlM_append, hfold]
              rfl
            refine ⟨.assistant none (formatToolCalls cfg.millis
                (processStream cfg.supportsReasoning ds).toolCalls) ::
              (mid ++ ap'), ?_, fun st hst => ⟨?_, ?_⟩⟩
            · rw [hap']
              simp [List.append_assoc]
            · intro htr
              obtain ⟨st', hst', hcl⟩ := (hcond (some []) (Or.inr rfl)).1 htr
              exact ⟨st', by rw [hchain ap' st hst]; exact hst', hcl⟩
            · intro htr
              obtain ⟨pre', tcs', hpre', htcs', st'', hst'', hcl⟩ :=
                (hcond (some []) (Or.inr rfl)).2 htr
              refine ⟨.assistant none (formatToolCalls cfg.millis
                  (processStream cfg.supportsReasoning ds).toolCalls) ::
                (mid ++ pre'), tcs', ?_, htcs', st'', ?_, hcl⟩
              · rw [hpre']
                simp [List.append_assoc]
              · rw [hchain pre' st hst]
                exact hst''

/-- Claim C1 (counterexample).  A concrete run on an endpoint that streams a
trivial `edit_file` batch every iteration: the produced transcript's final
entry is an assistant entry carrying one tool call that is followed by *no*
tool entry (the trivial-stop break skips the batch), so the claimed pairing
invariant fails on the transcript the loop produced, while it held on the
initial history. -/
theorem C1_trivial_stop_orphans_assistant_tool_calls :
    ∃ r, runLoop cfgTrivial initialHistory 10 = .ok r ∧
      r.history.getLast? =
        some (.assistant none [⟨"id1", "edit_file", "TRIV"⟩]) ∧
      pairingOk r.history = false ∧ pairingOk initialHistory = true :=
  ⟨_, rfl, rfl, rfl, rfl⟩

/-- Claim C1 (amended).  For every loop run (with an executor that appends
only `system` entries, as the real one does): when the run does *not* end
through the consecutive-trivial break, the appended transcript segment
satisfies the pairing invariant — every appended assistant entry carrying N
tool calls is followed, before any further assistant entry and before the
next model request, by exactly N tool entries whose `tool_call_id`s are a
permutation of its call ids (executor-injected `system` entries may
interleave), including when an individual tool execution fails; when the
run ends through the trivial break, the same holds for everything *except*
the final appended assistant entry, whose non-empty tool-call batch
receives no tool entries at all. -/
theorem C1_pairing_invariant (cfg : LoopConfig) (history : List Entry)
    (m : Nat) (hexec : ExecOnlySystem cfg.exec) (r : LoopFinal)
    (h : runLoop cfg history m = .ok r) :
    ∃ ap, r.history = history ++ ap ∧
      (r.trivialStop = false → pairingOk ap = true) ∧
      (r.trivialStop = true → ∃ pre tcs,
        ap = pre ++ [.assistant none tcs] ∧ tcs ≠ [] ∧
        pairingOk pre = true ∧ pairingOk ap = false) := by
  obtain ⟨ap, hap, hcond⟩ := loopGo_pairing cfg m hexec m 0 0 history 0 [] r h
  refine ⟨ap, hap, ?_, ?_⟩
  · intro htr
    obtain ⟨st', hst', hcl⟩ := (hcond none (Or.inl rfl)).1 htr
    unfold pairingOk pairingOkFrom
    rw [hst']
    rcases hcl with rfl | rfl <;> rfl
  · intro htr
    obtain ⟨pre, tcs, hpre, htcs, st', hst', hcl⟩ :=
      (hcond none (Or.inl rfl)).2 htr
    refine ⟨pre, tcs, hpre, htcs, ?_, ?_⟩
    · unfold pairingOk pairingOkFrom
      rw [hst']
      rcases hcl with rfl | rfl <;> rfl
    · have hAstep : pairStep st' (.assistant none tcs) =
          some (some (tcs.map RawToolCall.id)) := by
        rcases hcl with rfl | rfl <;>
          simp [pairStep,
            show tcs.isEmpty = false by simp [List.isEmpty_iff, htcs]]
      have hfold2 : (pre ++ [Entry.assistant none tcs]).foldlM pairStep
          (none : Option (List String)) = some (some (tcs.map RawToolCall.id)) := by
        rw [List.foldlM_append, hst']
        show [Entry.assistant none tcs].foldlM pairStep st' = _
        rw [List.foldlM_cons, hAstep]
        rfl
      unfold pairingOk pairingOkFrom
      rw [hpre, hfold2]
      cases tcs with
      | nil => exact absurd rfl htcs
      | cons t ts => rfl

/-- Witness for claim C1's amended statement at the concrete trivial-edit
run: the appended segment splits as a fully paired part followed by the
orphaned final assistant entry. -/
theorem C1_witness :
    ∃ ap r, runLoop cfgTrivial initialHistory 10 = .ok r ∧
      r.history = initialHistory ++ ap ∧ r.trivialStop = true ∧
      ∃ pre tcs, ap = pre ++ [.assistant none tcs] ∧ tcs ≠ [] ∧
        pairingOk pre = true ∧ pairingOk ap = false := by
  have hexec : ExecOnlySystem cfgTrivial.exec := by
    intro h tc e he
    exact absurd he (List.not_mem_nil e)
  obtain ⟨ap, hap, _, htriv⟩ := C1_pairing_invariant cfgTrivial initialHistory
    10 hexec _ rfl
  exact ⟨ap, _, rfl, hap, rfl, htriv rfl⟩

end AIEngineer
